import Mathlib

/-!
Verification of the Learner coordination core of `src/ds/learner.py`
(distributed SAC training: replay client with retry, training loop,
parameter server, actor websocket hub, CLI/config parsing).

Each definition is a shallow embedding of the corresponding Python code;
external collaborators (the `requests` library, the SAC model, JSON
decoding, the websocket transport) are modelled as explicit oracles or
event lists supplied as parameters.
-/

namespace SacDs

/-! ## Replay client retry loops
`Learner._get_sampled_data`, `Learner._update_td_errors` and
`Learner._clear_replay_buffer` all wrap a single `requests` call in
`while True: try ... except Exception: log; sleep(1) else: break`.
We model the behaviour of the network as a list of attempt outcomes:
each `requests.get`/`requests.post` call either raises an exception
carrying a message or completes with an HTTP response. -/

/-- An HTTP response as seen by the retry loops: a status code and a raw
body (the body is consumed later by `r.json()`). -/
structure HttpResponse where
  status : Nat
  body : String
deriving DecidableEq, Repr

/-- Outcome of one `requests.get`/`requests.post` call: it either raises
a transport exception with message `msg`, or completes with response `r`
(whatever its status code). -/
inductive Attempt where
  | exc (msg : String)
  | ok (r : HttpResponse)
deriving DecidableEq, Repr

/-- Observable side effects of one iteration of a retry loop:
`logger.error(...)` followed by `time.sleep(1)`. -/
inductive RetryEffect where
  | logError (msg : String)
  | sleepOneSecond
deriving DecidableEq, Repr

/-- `true` exactly on attempts that raise. -/
def isExc : Attempt → Bool
  | Attempt.exc _ => true
  | Attempt.ok _ => false

/-- The `while True: try/except/else: break` retry loop shared by the three
replay-client operations. It consumes attempts until the first completed
HTTP exchange, accumulating a `logError` and a `sleepOneSecond` effect per
raised attempt; it returns `none` only when every attempt raises (the
Python loop would still be spinning). -/
def retryLoop : List Attempt → Option (List RetryEffect × HttpResponse)
  | [] => none
  | Attempt.exc msg :: rest =>
      match retryLoop rest with
      | none => none
      | some (effs, r) =>
          some (RetryEffect.logError msg :: RetryEffect.sleepOneSecond :: effs, r)
  | Attempt.ok r :: _ => some ([], r)

/-- The effects produced by a run of raising attempts: one error log and
one 1-second sleep per exception, in order. -/
def excEffects (l : List Attempt) : List RetryEffect :=
  l.flatMap fun a =>
    match a with
    | Attempt.exc m => [RetryEffect.logError m, RetryEffect.sleepOneSecond]
    | Attempt.ok _ => []

/-- Decoded body of a `/sample` response (`data` in the Python code):
`none` models a falsy/empty JSON value ("buffer not yet warm"), `some d`
a batch. -/
structure SampleData where
  s : List Int
  a : List Int
  r : List Int
  sNext : List Int
  done : List Bool
  isWeights : List Int
  points : List String
deriving DecidableEq, Repr

/-- Result of a successful sample: either an empty/falsy value or a batch. -/
abbrev SampleResult := Option SampleData

/-- `Learner._get_sampled_data`: retry the GET until an HTTP exchange
completes, then — outside the loop — decode the body with `r.json()`.
`decode` is the JSON parser oracle: `none` means the body is not valid
JSON, in which case the decode error is raised to the caller
(`Except.error`), not retried. -/
def getSampledData (decode : String → Option SampleResult) (attempts : List Attempt) :
    Option (List RetryEffect × Except String SampleResult) :=
  (retryLoop attempts).map fun pr =>
    (pr.1,
      match decode pr.2.body with
      | some j => Except.ok j
      | none => Except.error "json decode error")

/-- `Learner._update_td_errors points td_errors`: POST with infinite
retry; the payload does not influence control flow, only the network
attempts do. Returns the retry effects once an exchange completes. -/
def updateTdErrors (_points : List String) (_tdErrors : List Int)
    (attempts : List Attempt) : Option (List RetryEffect) :=
  (retryLoop attempts).map Prod.fst

/-- `Learner._clear_replay_buffer`: GET `/clear` with infinite retry. -/
def clearReplayBuffer (attempts : List Attempt) : Option (List RetryEffect) :=
  (retryLoop attempts).map Prod.fst

lemma retryLoop_spec (pre : List Attempt) (resp : HttpResponse) (post : List Attempt)
    (h : pre.all isExc = true) :
    retryLoop (pre ++ Attempt.ok resp :: post) = some (excEffects pre, resp) := by
  induction pre with
  | nil => simp [retryLoop, excEffects]
  | cons a rest ih =>
      cases a with
      | exc m =>
          have hrest : rest.all isExc = true := by
            simpa [List.all_cons, isExc] using h
          simp [retryLoop, excEffects, ih hrest]
      | ok r => simp [List.all_cons, isExc] at h

/-- Claim C1: in each of the three ReplayClient operations
(`_get_sampled_data`, `_update_td_errors`, `_clear_replay_buffer`), every
raised network attempt produces exactly one error log followed by one
1-second sleep and the loop retries; the operation never surfaces a
network error to its caller and returns exactly when the first attempt
whose HTTP exchange completes is reached (later attempts are unused). -/
theorem replay_retry_until_success (pre post : List Attempt) (resp : HttpResponse)
    (pts : List String) (td : List Int) (decode : String → Option SampleResult)
    (h : pre.all isExc = true) :
    retryLoop (pre ++ Attempt.ok resp :: post) = some (excEffects pre, resp) ∧
    updateTdErrors pts td (pre ++ Attempt.ok resp :: post) = some (excEffects pre) ∧
    clearReplayBuffer (pre ++ Attempt.ok resp :: post) = some (excEffects pre) ∧
    (getSampledData decode (pre ++ Attempt.ok resp :: post)).isSome = true := by
  have hspec := retryLoop_spec pre resp post h
  refine ⟨hspec, ?_, ?_, ?_⟩
  · simp [updateTdErrors, hspec]
  · simp [clearReplayBuffer, hspec]
  · simp [getSampledData, hspec]

/-- Witness for C1: one refused attempt, then a completed exchange. -/
theorem replay_retry_until_success_witness :
    retryLoop [Attempt.exc "refused", Attempt.ok ⟨200, "x"⟩] =
      some ([RetryEffect.logError "refused", RetryEffect.sleepOneSecond], ⟨200, "x"⟩) ∧
    updateTdErrors ["a"] [0] [Attempt.exc "refused", Attempt.ok ⟨200, "x"⟩] =
      some [RetryEffect.logError "refused", RetryEffect.sleepOneSecond] ∧
    clearReplayBuffer [Attempt.exc "refused", Attempt.ok ⟨200, "x"⟩] =
      some [RetryEffect.logError "refused", RetryEffect.sleepOneSecond] ∧
    (getSampledData (fun _ => none) [Attempt.exc "refused", Attempt.ok ⟨200, "x"⟩]).isSome = true := by
  have h := replay_retry_until_success [Attempt.exc "refused"] [] ⟨200, "x"⟩
    ["a"] [0] (fun _ => none) (by decide)
  simpa [excEffects] using h

/-- Claim C9: in `_get_sampled_data` the retry loop guards only the HTTP
exchange: any completed response exits the loop whatever its status code
(`resp` is arbitrary here, in particular its `status`), and `r.json()`
runs outside the loop, so a completed response whose body fails to decode
makes the operation raise the decode error to its caller instead of
retrying (the attempts after the completed one are never consumed). -/
theorem sample_json_decode_outside_retry (pre post : List Attempt) (resp : HttpResponse)
    (decode : String → Option SampleResult) (h : pre.all isExc = true) :
    retryLoop (pre ++ Attempt.ok resp :: post) = some (excEffects pre, resp) ∧
    getSampledData decode (pre ++ Attempt.ok resp :: post) =
      some (excEffects pre,
        match decode resp.body with
        | some j => Except.ok j
        | none => Except.error "json decode error") ∧
    (decode resp.body = none →
      getSampledData decode (pre ++ Attempt.ok resp :: post) =
        some (excEffects pre, Except.error "json decode error")) := by
  have hspec := retryLoop_spec pre resp post h
  refine ⟨hspec, ?_, ?_⟩
  · simp [getSampledData, hspec]
  · intro hd
    simp [getSampledData, hspec, hd]

/-- Witness for C9: a completed 500-status response with a non-JSON body
exits the loop and raises the decode error. -/
theorem sample_json_decode_outside_retry_witness :
    retryLoop [Attempt.exc "refused", Attempt.ok ⟨500, "oops"⟩, Attempt.exc "later"] =
      some ([RetryEffect.logError "refused", RetryEffect.sleepOneSecond], ⟨500, "oops"⟩) ∧
    getSampledData (fun _ => none)
        [Attempt.exc "refused", Attempt.ok ⟨500, "oops"⟩, Attempt.exc "later"] =
      some ([RetryEffect.logError "refused", RetryEffect.sleepOneSecond],
        Except.error "json decode error") := by
  have h := sample_json_decode_outside_retry [Attempt.exc "refused"] [Attempt.exc "later"]
    ⟨500, "oops"⟩ (fun _ => none) (by decide)
  exact ⟨by simpa [excEffects] using h.1, by simpa [excEffects] using h.2.2 rfl⟩

/-! ## Training loop
`Learner._run_training_client` clears the replay buffer and then loops
forever: sample; if the decoded data is non-empty, lazily start the
evaluation thread (`t_evaluation.is_alive()` is `False` only before the
first `start()`, since `_start_policy_evaluation` is a `while True` loop
that never terminates, so the flag is set-once), train on the batch, and
report the new priorities. We model a run of the loop over a finite
prefix of sample outcomes (the replay client itself is verified above),
with `train` the SAC model oracle returning `(curr_step, td_errors)`,
and record the observable actions as a trace of events. -/

/-- Observable actions of one run of the training loop. -/
inductive TrainEvent where
  | clearCall
  | sampleCall
  | evalStart
  | trainStep (d : SampleData) (tdErrors : List Int)
  | updateCall (points : List String) (tdErrors : List Int)
deriving DecidableEq, Repr

/-- Number of transitions in a batch. -/
def SampleData.numTrans (d : SampleData) : Nat := d.s.length

/-- The Batch invariant: all seven per-transition sequences have the same
length. -/
def SampleData.batchWf (d : SampleData) : Bool :=
  decide (d.a.length = d.s.length) && decide (d.r.length = d.s.length) &&
    decide (d.sNext.length = d.s.length) && decide (d.done.length = d.s.length) &&
    decide (d.isWeights.length = d.s.length) && decide (d.points.length = d.s.length)

/-- The body of the `while True` loop of `_run_training_client`, run over
a finite list of sample outcomes; `evalAlive` is `t_evaluation.is_alive()`. -/
def runTrainingClient (train : SampleData → Nat × List Int) :
    List SampleResult → Bool → List TrainEvent
  | [], _ => []
  | none :: rest, evalAlive =>
      TrainEvent.sampleCall :: runTrainingClient train rest evalAlive
  | some d :: rest, evalAlive =>
      TrainEvent.sampleCall ::
        ((if evalAlive then [] else [TrainEvent.evalStart]) ++
          TrainEvent.trainStep d (train d).2 ::
            TrainEvent.updateCall d.points (train d).2 ::
              runTrainingClient train rest true)

/-- `_run_training_client` from the top: clear the replay buffer, then
enter the loop with the evaluation thread not yet started. -/
def runTrainingClientTop (train : SampleData → Nat × List Int)
    (samples : List SampleResult) : List TrainEvent :=
  TrainEvent.clearCall :: runTrainingClient train samples false

/-- `true` exactly on `sampleCall` events. -/
def isSampleCall : TrainEvent → Bool
  | TrainEvent.sampleCall => true
  | _ => false

/-- `true` exactly on `trainStep` events. -/
def isTrainStep : TrainEvent → Bool
  | TrainEvent.trainStep _ _ => true
  | _ => false

/-- `true` exactly on `updateCall` events. -/
def isUpdateCall : TrainEvent → Bool
  | TrainEvent.updateCall _ _ => true
  | _ => false

/-- `true` exactly on `evalStart` events. -/
def isEvalStart : TrainEvent → Bool
  | TrainEvent.evalStart => true
  | _ => false

/-- A trace is well paired when every `trainStep` is immediately followed
by the `updateCall` that pairs that batch's `points` with that step's
`td_errors`, and no `updateCall` occurs otherwise. -/
def wellPaired : List TrainEvent → Bool
  | [] => true
  | TrainEvent.trainStep d td :: TrainEvent.updateCall pts td2 :: rest =>
      decide (pts = d.points) && decide (td2 = td) && wellPaired rest
  | TrainEvent.trainStep _ _ :: _ => false
  | TrainEvent.updateCall _ _ :: _ => false
  | _ :: rest => wellPaired rest

/-- Claim C2: for every non-empty batch the loop processes, exactly one
priority update is sent (one `updateCall` per non-empty sample), it
immediately — hence strictly — follows the training step on that batch,
it pairs that batch's `points` with that step's `td_errors`, and
`len(points) = len(td_errors)` whenever the batch satisfies the Batch
invariant and the training step returns one td-error per transition. -/
theorem priority_update_pairs_batch (train : SampleData → Nat × List Int)
    (samples : List SampleResult) (alive : Bool)
    (h : ∀ d : SampleData, some d ∈ samples →
      d.batchWf = true ∧ (train d).2.length = d.numTrans) :
    wellPaired (runTrainingClient train samples alive) = true ∧
    (runTrainingClient train samples alive).countP isUpdateCall =
      samples.countP Option.isSome ∧
    (∀ pts td, TrainEvent.updateCall pts td ∈ runTrainingClient train samples alive →
      pts.length = td.length) := by
  induction samples generalizing alive with
  | nil => simp [runTrainingClient, wellPaired]
  | cons x rest ih =>
      have hrest : ∀ d : SampleData, some d ∈ rest →
          d.batchWf = true ∧ (train d).2.length = d.numTrans := by
        intro d hd
        exact h d (List.mem_cons_of_mem _ hd)
      cases x with
      | none =>
          obtain ⟨ih1, ih2, ih3⟩ := ih alive hrest
          refine ⟨?_, ?_, ?_⟩
          · simpa [runTrainingClient, wellPaired] using ih1
          · simp [runTrainingClient, List.countP_cons, isUpdateCall, ih2]
          · intro pts td hmem
            have hmem2 : TrainEvent.updateCall pts td ∈ runTrainingClient train rest alive := by
              simpa [runTrainingClient] using hmem
            exact ih3 pts td hmem2
      | some d =>
          obtain ⟨hwf, hlen⟩ := h d (List.mem_cons_self _ _)
          simp [SampleData.batchWf] at hwf
          simp [SampleData.numTrans] at hlen
          have hlen2 : d.points.length = (train d).2.length := by
            rw [hlen]
            tauto
          obtain ⟨ih1, ih2, ih3⟩ := ih true hrest
          cases alive with
          | true =>
              refine ⟨?_, ?_, ?_⟩
              · simpa [runTrainingClient, wellPaired] using ih1
              · simp [runTrainingClient, List.countP_cons, isUpdateCall, ih2]
              · intro pts td hmem
                simp [runTrainingClient] at hmem
                rcases hmem with ⟨hp, ht⟩ | hm
                · rw [hp, ht]
                  exact hlen2
                · exact ih3 pts td hm
          | false =>
              refine ⟨?_, ?_, ?_⟩
              · simpa [runTrainingClient, wellPaired] using ih1
              · simp [runTrainingClient, List.countP_cons, isUpdateCall, isEvalStart, ih2]
              · intro pts td hmem
                simp [runTrainingClient] at hmem
                rcases hmem with ⟨hp, ht⟩ | hm
                · rw [hp, ht]
                  exact hlen2
                · exact ih3 pts td hm

/-- A batch of two transitions with replay points "a" and "b", used as a
concrete test fixture. -/
def cSample : SampleData :=
  ⟨[0, 1], [0, 1], [0, 1], [0, 1], [false, true], [1, 1], ["a", "b"]⟩

/-- A concrete training oracle: step counter 7, one zero td-error per
transition. -/
def cTrain : SampleData → Nat × List Int :=
  fun d => (7, List.replicate d.numTrans 0)

/-- Witness for C2 at a concrete batch list and oracle. -/
theorem priority_update_pairs_batch_witness :
    wellPaired (runTrainingClient cTrain [none, some cSample] false) = true ∧
    (runTrainingClient cTrain [none, some cSample] false).countP isUpdateCall =
      ([none, some cSample] : List SampleResult).countP Option.isSome := by
  have h := priority_update_pairs_batch cTrain [none, some cSample] false
    (by intro d hd; simp at hd; subst hd; exact ⟨by decide, by decide⟩)
  exact ⟨h.1, h.2.1⟩

/-- Claim C3: an empty sample triggers no training step and no priority
update, the loop immediately samples again; concretely, for a replay
service answering empty three times and then a two-transition batch with
points "a","b", the loop samples 4 times, trains once, and sends exactly
the one update pairing ["a","b"] with that step's td-errors. -/
theorem empty_sample_loops_immediately (train : SampleData → Nat × List Int)
    (d : SampleData) (cs : Nat) (tdA tdB : Int)
    (hp : d.points = ["a", "b"]) (ht : train d = (cs, [tdA, tdB])) :
    (∀ (rest : List SampleResult) (alive : Bool),
      runTrainingClient train (none :: rest) alive =
        TrainEvent.sampleCall :: runTrainingClient train rest alive) ∧
    (runTrainingClientTop train [none, none, none, some d]).countP isSampleCall = 4 ∧
    (runTrainingClientTop train [none, none, none, some d]).countP isTrainStep = 1 ∧
    (runTrainingClientTop train [none, none, none, some d]).filter isUpdateCall =
      [TrainEvent.updateCall ["a", "b"] [tdA, tdB]] := by
  refine ⟨fun rest alive => rfl, ?_, ?_, ?_⟩
  · simp [runTrainingClientTop, runTrainingClient, isSampleCall]
  · simp [runTrainingClientTop, runTrainingClient, isTrainStep]
  · simp [runTrainingClientTop, runTrainingClient, isUpdateCall, isSampleCall,
      isTrainStep, isEvalStart, ht, hp]

/-- Witness for C3 with the concrete fixture batch and oracle. -/
theorem empty_sample_loops_immediately_witness :
    (runTrainingClientTop cTrain [none, none, none, some cSample]).countP isSampleCall = 4 ∧
    (runTrainingClientTop cTrain [none, none, none, some cSample]).countP isTrainStep = 1 ∧
    (runTrainingClientTop cTrain [none, none, none, some cSample]).filter isUpdateCall =
      [TrainEvent.updateCall ["a", "b"] [0, 0]] := by
  have h := empty_sample_loops_immediately cTrain cSample 7 0 0 (by decide)
    (by simp [cTrain, cSample, SampleData.numTrans])
  exact ⟨h.2.1, h.2.2.1, h.2.2.2⟩

lemma evalStart_count_alive (train : SampleData → Nat × List Int) :
    ∀ samples : List SampleResult,
      (runTrainingClient train samples true).countP isEvalStart = 0 := by
  intro samples
  induction samples with
  | nil => simp [runTrainingClient]
  | cons x rest ih =>
      cases x with
      | none => simpa [runTrainingClient, List.countP_cons, isEvalStart] using ih
      | some d => simpa [runTrainingClient, List.countP_cons, isEvalStart,
          isUpdateCall, isTrainStep] using ih

lemma evalStart_count_fresh (train : SampleData → Nat × List Int) :
    ∀ samples : List SampleResult,
      (runTrainingClient train samples false).countP isEvalStart ≤ 1 := by
  intro samples
  induction samples with
  | nil => simp [runTrainingClient]
  | cons x rest ih =>
      cases x with
      | none => simpa [runTrainingClient, List.countP_cons, isEvalStart] using ih
      | some d =>
          simp [runTrainingClient, List.countP_cons, isEvalStart,
            evalStart_count_alive train rest]

lemma run_first_nonempty (train : SampleData → Nat × List Int)
    (pre : List SampleResult) (d : SampleData) (post : List SampleResult)
    (hall : ∀ x ∈ pre, x = none) :
    runTrainingClient train (pre ++ some d :: post) false =
      List.replicate pre.length TrainEvent.sampleCall ++
        TrainEvent.sampleCall :: TrainEvent.evalStart ::
          TrainEvent.trainStep d (train d).2 ::
            TrainEvent.updateCall d.points (train d).2 ::
              runTrainingClient train post true := by
  induction pre with
  | nil => simp [runTrainingClient]
  | cons x pre ih =>
      have hx : x = none := hall x (List.mem_cons_self _ _)
      subst hx
      have hall2 : ∀ x ∈ pre, x = none := fun x hx => hall x (List.mem_cons_of_mem _ hx)
      simp only [List.cons_append, List.length_cons, List.replicate_succ]
      rw [show runTrainingClient train (none :: (pre ++ some d :: post)) false =
        TrainEvent.sampleCall :: runTrainingClient train (pre ++ some d :: post) false from rfl]
      rw [ih hall2]

/-- Claim C6: the evaluation loop is started at most once — never while
the evaluation thread is alive, at most once from a fresh run — and it is
started exactly at the first non-empty batch, after which the flag stays
set for the rest of the run. -/
theorem eval_loop_started_once (train : SampleData → Nat × List Int) :
    (∀ samples : List SampleResult,
      (runTrainingClient train samples true).countP isEvalStart = 0) ∧
    (∀ samples : List SampleResult,
      (runTrainingClientTop train samples).countP isEvalStart ≤ 1) ∧
    (∀ (pre : List SampleResult) (d : SampleData) (post : List SampleResult),
      (∀ x ∈ pre, x = none) →
      runTrainingClient train (pre ++ some d :: post) false =
        List.replicate pre.length TrainEvent.sampleCall ++
          TrainEvent.sampleCall :: TrainEvent.evalStart ::
            TrainEvent.trainStep d (train d).2 ::
              TrainEvent.updateCall d.points (train d).2 ::
                runTrainingClient train post true) := by
  refine ⟨evalStart_count_alive train, ?_, run_first_nonempty train⟩
  intro samples
  have h2 := evalStart_count_fresh train samples
  simp only [runTrainingClientTop, List.countP_cons, isEvalStart]
  simpa using h2

/-- Witness for C6: one empty sample, then the fixture batch — the single
`evalStart` occurs right after the first non-empty sample call. -/
theorem eval_loop_started_once_witness :
    runTrainingClient cTrain [none, some cSample] false =
      [TrainEvent.sampleCall, TrainEvent.sampleCall, TrainEvent.evalStart,
        TrainEvent.trainStep cSample [0, 0],
        TrainEvent.updateCall ["a", "b"] [0, 0]] := by
  have h := (eval_loop_started_once cTrain).2.2 [none] cSample [] (by simp)
  have h2 : List.replicate ([(none : SampleResult)] : List SampleResult).length
        TrainEvent.sampleCall ++
      TrainEvent.sampleCall :: TrainEvent.evalStart ::
        TrainEvent.trainStep cSample (cTrain cSample).2 ::
          TrainEvent.updateCall cSample.points (cTrain cSample).2 ::
            runTrainingClient cTrain [] true =
      [TrainEvent.sampleCall, TrainEvent.sampleCall, TrainEvent.evalStart,
        TrainEvent.trainStep cSample [0, 0],
        TrainEvent.updateCall ["a", "b"] [0, 0]] := by
    simp [cTrain, cSample, SampleData.numTrans, runTrainingClient]
  exact h.trans h2

/-! ## Actor websocket hub
`WebsocketServer` keeps `_websocket_clients`, a Python `set` of open
connections, modelled as a `Finset Conn`. `_websocket_open` handles one
connection: for each inbound message equal to `"actor"` it adds the
connection to the set, logs the registry, and sends `"reset"`; when the
transport raises `ConnectionClosed` (graceful close or I/O error), it
removes the connection if present (the inner `try/except/else`).
`send_to_all` sends a message to every registered connection. -/

/-- A websocket connection: an identity plus `remote_address`. -/
structure Conn where
  id : Nat
  host : String
  port : Nat
deriving DecidableEq, Repr

/-- `print_websocket_clients`: logs the active-actor count together with
each member's remote address. -/
def logClients (clients : Finset Conn) : Nat × Finset (String × Nat) :=
  (clients.card, clients.image fun c => (c.host, c.port))

/-- Result of running one connection's `_websocket_open` message loop:
final registry, emitted registry logs, and messages sent back. -/
structure HandlerResult where
  clients : Finset Conn
  logs : List (Nat × Finset (String × Nat))
  sent : List String
deriving DecidableEq

/-- The `async for message in websocket` body of `_websocket_open`, run
over the connection's inbound messages with the shared registry threaded
through. -/
def websocketMsgLoop (ws : Conn) : List String → Finset Conn → HandlerResult
  | [], clients => ⟨clients, [], []⟩
  | m :: rest, clients =>
      if m = "actor" then
        let clients2 := insert ws clients
        let res := websocketMsgLoop ws rest clients2
        ⟨res.clients, logClients clients2 :: res.logs, "reset" :: res.sent⟩
      else websocketMsgLoop ws rest clients

/-- `send_to_all`: the set of `(connection, message)` sends issued by a
broadcast. -/
def sendToAll (clients : Finset Conn) (message : String) : Finset (Conn × String) :=
  clients.image fun c => (c, message)

/-- An event observed by the hub, interleaved over all connections:
an inbound message on one connection's handler, or a `ConnectionClosed`
raised for it. -/
inductive HubEvent where
  | fromClient (ws : Conn) (text : String)
  | disconnect (ws : Conn)
deriving DecidableEq, Repr

/-- Effect of one hub event on the registry: a `"actor"` handshake adds
the connection, any other message leaves it unchanged, a disconnect
removes it (`erase` is a no-op when absent, like the `except: pass`). -/
def hubStep (clients : Finset Conn) : HubEvent → Finset Conn
  | HubEvent.fromClient ws text => if text = "actor" then insert ws clients else clients
  | HubEvent.disconnect ws => clients.erase ws

/-- The registry after a sequence of hub events. -/
def hubRun (evs : List HubEvent) (clients : Finset Conn) : Finset Conn :=
  evs.foldl hubStep clients

/-- `true` exactly on handshake (connect) events. -/
def isConnectEvent : HubEvent → Bool
  | HubEvent.fromClient _ text => decide (text = "actor")
  | HubEvent.disconnect _ => false

/-- `true` exactly on disconnect events. -/
def isDisconnectEvent : HubEvent → Bool
  | HubEvent.fromClient _ _ => false
  | HubEvent.disconnect _ => true

/-- Well-formed event sequences relative to the sets `C` of connections
handshaken so far and `D` of those disconnected so far: every connection
handshakes at most once (distinct connections), and every disconnect is
of a currently-registered, not-yet-disconnected connection. -/
def hubWf : List HubEvent → Finset Conn → Finset Conn → Bool
  | [], _, _ => true
  | HubEvent.fromClient ws text :: rest, C, D =>
      if text = "actor" then
        !(decide (ws ∈ C)) && !(decide (ws ∈ D)) && hubWf rest (insert ws C) D
      else hubWf rest C D
  | HubEvent.disconnect ws :: rest, C, D =>
      decide (ws ∈ C) && !(decide (ws ∈ D)) && hubWf rest C (insert ws D)

lemma hubWf_actor_inv (ws : Conn) (rest : List HubEvent) (C D : Finset Conn)
    (h : hubWf (HubEvent.fromClient ws "actor" :: rest) C D = true) :
    ws ∉ C ∧ ws ∉ D ∧ hubWf rest (insert ws C) D = true := by
  simp [hubWf] at h
  tauto

lemma hubWf_msg_other_inv (ws : Conn) (text : String) (rest : List HubEvent)
    (C D : Finset Conn) (hne : text ≠ "actor")
    (h : hubWf (HubEvent.fromClient ws text :: rest) C D = true) :
    hubWf rest C D = true := by
  simpa [hubWf, hne] using h

lemma hubWf_disconnect_inv (ws : Conn) (rest : List HubEvent) (C D : Finset Conn)
    (h : hubWf (HubEvent.disconnect ws :: rest) C D = true) :
    ws ∈ C ∧ ws ∉ D ∧ hubWf rest C (insert ws D) = true := by
  simp [hubWf] at h
  tauto

lemma insert_sdiff_comm (ws : Conn) (C D : Finset Conn) (hD : ws ∉ D) :
    insert ws (C \ D) = (insert ws C) \ D := by
  ext a
  simp only [Finset.mem_insert, Finset.mem_sdiff]
  constructor
  · rintro (rfl | ⟨ha, hb⟩)
    · exact ⟨Or.inl rfl, hD⟩
    · exact ⟨Or.inr ha, hb⟩
  · rintro ⟨rfl | ha, hb⟩
    · exact Or.inl rfl
    · exact Or.inr ⟨ha, hb⟩

lemma erase_sdiff_comm (ws : Conn) (C D : Finset Conn) :
    (C \ D).erase ws = C \ (insert ws D) := by
  ext a
  simp only [Finset.mem_erase, Finset.mem_sdiff, Finset.mem_insert]
  constructor
  · rintro ⟨hne, ha, hb⟩
    exact ⟨ha, by rintro (rfl | hd); exact hne rfl; exact hb hd⟩
  · rintro ⟨ha, hb⟩
    refine ⟨?_, ha, fun hd => hb (Or.inr hd)⟩
    rintro rfl
    exact hb (Or.inl rfl)

lemma hubRun_card (evs : List HubEvent) :
    ∀ C D : Finset Conn, hubWf evs C D = true → D ⊆ C →
      (hubRun evs (C \ D)).card + evs.countP isDisconnectEvent =
        (C \ D).card + evs.countP isConnectEvent := by
  induction evs with
  | nil => intro C D _ _; simp [hubRun]
  | cons e rest ih =>
      intro C D hwf hsub
      cases e with
      | fromClient ws text =>
          by_cases htext : text = "actor"
          · subst htext
            obtain ⟨hC, hD, hwf2⟩ := hubWf_actor_inv ws rest C D hwf
            have hstep : hubRun (HubEvent.fromClient ws "actor" :: rest) (C \ D) =
                hubRun rest (insert ws (C \ D)) := by
              simp [hubRun, hubStep]
            have hins := insert_sdiff_comm ws C D hD
            have hsub2 : D ⊆ insert ws C := hsub.trans (Finset.subset_insert _ _)
            have hcard : ((insert ws C) \ D).card = (C \ D).card + 1 := by
              rw [← hins]
              exact Finset.card_insert_of_not_mem
                (fun hmem => hC (Finset.mem_sdiff.mp hmem).1)
            have hih := ih (insert ws C) D hwf2 hsub2
            rw [hstep, hins]
            simp [List.countP_cons, isConnectEvent, isDisconnectEvent]
            omega
          · have hwf2 := hubWf_msg_other_inv ws text rest C D htext hwf
            have hstep : hubRun (HubEvent.fromClient ws text :: rest) (C \ D) =
                hubRun rest (C \ D) := by
              simp [hubRun, hubStep, htext]
            have hih := ih C D hwf2 hsub
            rw [hstep]
            simp [List.countP_cons, isConnectEvent, isDisconnectEvent, htext]
            omega
      | disconnect ws =>
          obtain ⟨hC, hD, hwf2⟩ := hubWf_disconnect_inv ws rest C D hwf
          have hstep : hubRun (HubEvent.disconnect ws :: rest) (C \ D) =
              hubRun rest ((C \ D).erase ws) := by
            simp [hubRun, hubStep]
          have hera := erase_sdiff_comm ws C D
          have hsub2 : insert ws D ⊆ C := by
            intro a ha
            rcases Finset.mem_insert.mp ha with rfl | ha
            · exact hC
            · exact hsub ha
          have hmem : ws ∈ C \ D := Finset.mem_sdiff.mpr ⟨hC, hD⟩
          have hcard : ((C \ D).erase ws).card + 1 = (C \ D).card :=
            Finset.card_erase_add_one hmem
          rw [hera] at hcard
          have hih := ih C (insert ws D) hwf2 hsub2
          rw [hstep, hera]
          simp [List.countP_cons, isConnectEvent, isDisconnectEvent]
          omega


lemma hubRun_disconnected_not_mem (evs : List HubEvent) :
    ∀ C D s : Finset Conn, hubWf evs C D = true → (∀ ws ∈ D, ws ∉ s) →
      ∀ ws : Conn, (ws ∈ D ∨ HubEvent.disconnect ws ∈ evs) → ws ∉ hubRun evs s := by
  induction evs with
  | nil =>
      intro C D s _ hDs ws hcase
      rcases hcase with hD | hmem
      · intro hs
        exact hDs ws hD (by simpa [hubRun] using hs)
      · simp at hmem
  | cons e rest ih =>
      intro C D s hwf hDs ws hcase
      cases e with
      | fromClient w text =>
          by_cases htext : text = "actor"
          · subst htext
            obtain ⟨hC, hD, hwf2⟩ := hubWf_actor_inv w rest C D hwf
            have hDs2 : ∀ x ∈ D, x ∉ insert w s := by
              intro x hx
              simp only [Finset.mem_insert]
              rintro (rfl | hxs)
              · exact hD hx
              · exact hDs x hx hxs
            have hstep : hubRun (HubEvent.fromClient w "actor" :: rest) s =
                hubRun rest (insert w s) := by
              simp [hubRun, hubStep]
            rw [hstep]
            refine ih (insert w C) D (insert w s) hwf2 hDs2 ws ?_
            rcases hcase with h1 | h2
            · exact Or.inl h1
            · right
              simpa using h2
          · have hwf2 := hubWf_msg_other_inv w text rest C D htext hwf
            have hstep : hubRun (HubEvent.fromClient w text :: rest) s =
                hubRun rest s := by
              simp [hubRun, hubStep, htext]
            rw [hstep]
            refine ih C D s hwf2 hDs ws ?_
            rcases hcase with h1 | h2
            · exact Or.inl h1
            · right
              simpa using h2
      | disconnect w =>
          obtain ⟨hC, hD, hwf2⟩ := hubWf_disconnect_inv w rest C D hwf
          have hDs2 : ∀ x ∈ insert w D, x ∉ s.erase w := by
            intro x hx
            rcases Finset.mem_insert.mp hx with rfl | hxD
            · exact Finset.not_mem_erase x s
            · intro hxs
              exact hDs x hxD (Finset.mem_of_mem_erase hxs)
          have hstep : hubRun (HubEvent.disconnect w :: rest) s =
              hubRun rest (s.erase w) := by
            simp [hubRun, hubStep]
          rw [hstep]
          refine ih C (insert w D) (s.erase w) hwf2 hDs2 ws ?_
          rcases hcase with h1 | h2
          · exact Or.inl (Finset.mem_insert_of_mem h1)
          · rcases List.mem_cons.mp h2 with heq | hmem
            · rw [HubEvent.disconnect.injEq] at heq
              rw [heq]
              exact Or.inl (Finset.mem_insert_self w D)
            · exact Or.inr hmem

/-- Claim C4: after any well-formed sequence of K distinct actor
handshakes and M ≤ K disconnects (graceful close or I/O error alike),
every disconnected connection has been removed from the registry, the
registry holds exactly K−M connections, and a broadcast issued at that
point sends the message to exactly the K−M remaining connections. -/
theorem hub_registry_after_connects_disconnects (evs : List HubEvent) (msg : String)
    (h : hubWf evs ∅ ∅ = true) :
    (∀ ws : Conn, HubEvent.disconnect ws ∈ evs → ws ∉ hubRun evs ∅) ∧
    (hubRun evs ∅).card + evs.countP isDisconnectEvent = evs.countP isConnectEvent ∧
    (hubRun evs ∅).card = evs.countP isConnectEvent - evs.countP isDisconnectEvent ∧
    (∀ c : Conn, (c, msg) ∈ sendToAll (hubRun evs ∅) msg ↔ c ∈ hubRun evs ∅) ∧
    (sendToAll (hubRun evs ∅) msg).card =
      evs.countP isConnectEvent - evs.countP isDisconnectEvent := by
  have hcard := hubRun_card evs ∅ ∅ h (Finset.Subset.refl _)
  simp only [Finset.sdiff_empty, Finset.card_empty, Nat.zero_add] at hcard
  have hnotmem := hubRun_disconnected_not_mem evs ∅ ∅ ∅ h (by simp)
  have himg : (sendToAll (hubRun evs ∅) msg).card = (hubRun evs ∅).card := by
    rw [sendToAll]
    exact Finset.card_image_of_injective _ (fun a b hab => (Prod.mk.injEq _ _ _ _ ▸ hab).1)
  refine ⟨?_, hcard, by omega, ?_, by omega⟩
  · intro ws hws
    exact hnotmem ws (Or.inr hws)
  · intro c
    simp [sendToAll]

/-- A fixture connection. -/
def cConn1 : Conn := ⟨1, "10.0.0.1", 5000⟩

/-- Another fixture connection. -/
def cConn2 : Conn := ⟨2, "10.0.0.2", 5001⟩

/-- Fixture event sequence: two handshakes, then the first connection
drops. -/
def cHubEvents : List HubEvent :=
  [HubEvent.fromClient cConn1 "actor", HubEvent.fromClient cConn2 "actor",
    HubEvent.disconnect cConn1]

/-- Witness for C4 at the fixture events: K = 2, M = 1. -/
theorem hub_registry_after_connects_disconnects_witness :
    (hubRun cHubEvents ∅).card + cHubEvents.countP isDisconnectEvent =
      cHubEvents.countP isConnectEvent ∧
    (sendToAll (hubRun cHubEvents ∅) "reset").card =
      cHubEvents.countP isConnectEvent - cHubEvents.countP isDisconnectEvent := by
  have h := hub_registry_after_connects_disconnects cHubEvents "reset" (by decide)
  exact ⟨h.2.1, h.2.2.2.2⟩

lemma websocketMsgLoop_mono (ws : Conn) (msgs : List String) :
    ∀ clients : Finset Conn, clients ⊆ (websocketMsgLoop ws msgs clients).clients := by
  induction msgs with
  | nil =>
      intro clients
      simp [websocketMsgLoop]
  | cons m rest ih =>
      intro clients
      by_cases hm : m = "actor"
      · subst hm
        simp only [websocketMsgLoop, if_pos rfl]
        exact (Finset.subset_insert _ _).trans (ih (insert ws clients))
      · simpa [websocketMsgLoop, hm] using ih clients

/-- Claim C7: on receiving the handshake token "actor" the hub adds the
connection to the registry (and it is still registered at the end of the
message stream), logs the updated registry via `logClients` (count plus
each member's remote address), and replies "reset"; any other message
triggers none of these three actions. -/
theorem actor_handshake_actions (ws : Conn) (clients : Finset Conn) (m : String)
    (rest : List String) :
    (m = "actor" →
      websocketMsgLoop ws (m :: rest) clients =
        ⟨(websocketMsgLoop ws rest (insert ws clients)).clients,
          logClients (insert ws clients) ::
            (websocketMsgLoop ws rest (insert ws clients)).logs,
          "reset" :: (websocketMsgLoop ws rest (insert ws clients)).sent⟩ ∧
      ws ∈ (websocketMsgLoop ws (m :: rest) clients).clients) ∧
    (m ≠ "actor" →
      websocketMsgLoop ws (m :: rest) clients = websocketMsgLoop ws rest clients) := by
  constructor
  · intro hm
    subst hm
    constructor
    · simp [websocketMsgLoop]
    · simp only [websocketMsgLoop, if_pos rfl]
      exact websocketMsgLoop_mono ws rest (insert ws clients)
        (Finset.mem_insert_self ws clients)
  · intro hm
    simp [websocketMsgLoop, hm]

/-- Witness for C7: a fresh connection handshakes once. -/
theorem actor_handshake_actions_witness :
    websocketMsgLoop cConn1 ["actor"] ∅ =
      ⟨{cConn1}, [(1, {("10.0.0.1", 5000)})], ["reset"]⟩ ∧
    cConn1 ∈ (websocketMsgLoop cConn1 ["actor"] ∅).clients := by
  have h := (actor_handshake_actions cConn1 ∅ "actor" []).1 rfl
  refine ⟨?_, h.2⟩
  rw [h.1]
  decide

/-- Claim C10: a repeated "actor" handshake from a connection already in
the registry leaves the registry unchanged (the Python `set.add` is
idempotent, so the connection appears exactly once), while still
producing one additional registry log and one additional "reset" reply. -/
theorem repeated_actor_handshake_idempotent (ws : Conn) (clients : Finset Conn)
    (rest : List String) (h : ws ∈ clients) :
    insert ws clients = clients ∧
    (websocketMsgLoop ws ("actor" :: rest) clients).clients =
      (websocketMsgLoop ws rest clients).clients ∧
    (websocketMsgLoop ws ("actor" :: rest) clients).logs =
      logClients clients :: (websocketMsgLoop ws rest clients).logs ∧
    (websocketMsgLoop ws ("actor" :: rest) clients).sent =
      "reset" :: (websocketMsgLoop ws rest clients).sent := by
  have hins : insert ws clients = clients := Finset.insert_eq_self.mpr h
  refine ⟨hins, ?_, ?_, ?_⟩ <;> simp [websocketMsgLoop, hins]

/-- Witness for C10: the fixture connection handshakes again while
already registered. -/
theorem repeated_actor_handshake_idempotent_witness :
    insert cConn1 ({cConn1} : Finset Conn) = {cConn1} ∧
    (websocketMsgLoop cConn1 ["actor"] {cConn1}).clients =
      (websocketMsgLoop cConn1 [] {cConn1}).clients ∧
    (websocketMsgLoop cConn1 ["actor"] {cConn1}).logs =
      logClients {cConn1} :: (websocketMsgLoop cConn1 [] {cConn1}).logs ∧
    (websocketMsgLoop cConn1 ["actor"] {cConn1}).sent =
      "reset" :: (websocketMsgLoop cConn1 [] {cConn1}).sent :=
  repeated_actor_handshake_idempotent cConn1 {cConn1} [] (by decide)


/-! ## Configuration parsing
`Learner._init_config` parses `argv` with
`getopt.getopt(argv, 'c:en:n:', ['config=', 'replay_host', 'replay_port',
'learner_port=', 'build_port=', 'name=', 'sac='])`; a first loop applies
the `-c`/`--config` YAML file (setting `self._replay_host`,
`self._replay_port`, `self._learner_port`, `self._websocket_port`), and a
second loop applies the CLI overrides. In that second loop the branch
`if opt == 'learner_port'` can never match — getopt yields long options
with their leading dashes, as `'--learner_port'` — and even its body
`config['learner_port'] == int(arg)` is a comparison, not an assignment,
and touches the `config` dict rather than `self._learner_port`, which is
the value `_run_learner_server` passes to `app.run`. -/

/-- The port-and-name state carried on `self` plus the `config` entries
relevant here (defaults from the class attributes and the `config`
dict literal). -/
structure LearnerConfig where
  replayHost : String
  replayPort : Nat
  learnerPort : Nat
  websocketPort : Nat
  buildPort : Nat
  name : String
  sacModule : String
deriving DecidableEq, Repr

/-- Timestamp captured at process start (`NOW`); its value is irrelevant
to the claims and fixed arbitrarily. -/
def nowStamp : String := "19700101000000"

/-- The defaults before any config file or CLI option is applied. -/
def defaultLearnerConfig : LearnerConfig :=
  ⟨"127.0.0.1", 61000, 61001, 61002, 5006, nowStamp, "sac"⟩

/-- `getopt.getopt` restricted to the option table of `_init_config`:
a long option is returned with its leading dashes (as `"--learner_port"`)
paired with the following token when it is declared with `=` in the
table, and with `""` when not; `-c` and `-n` take the next token, `-e`
takes none; parsing stops at the first token that is not an option, and
fails (`GetoptError`, re-raised as `Exception('ARGS ERROR')`) on an
unknown option or a missing value. (The inline `--opt=value` form is not
needed by any claim and is left out.) -/
def parseOpts : List String → Option (List (String × String))
  | [] => some []
  | tok :: rest =>
      if tok = "--config" ∨ tok = "--learner_port" ∨ tok = "--build_port" ∨
          tok = "--name" ∨ tok = "--sac" ∨ tok = "-c" ∨ tok = "-n" then
        match rest with
        | [] => none
        | v :: rest2 => (parseOpts rest2).map fun l => (tok, v) :: l
      else if tok = "--replay_host" ∨ tok = "--replay_port" ∨ tok = "-e" then
        (parseOpts rest).map fun l => (tok, "") :: l
      else
        match tok.data with
        | '-' :: _ => none
        | _ => some []

/-- A scalar value read from the YAML config file. -/
inductive ConfigVal where
  | nat (n : Nat)
  | str (s : String)
deriving DecidableEq, Repr

/-- The first loop of `_init_config`: apply the config-file entries
(`replay_host`, `replay_port`, `learner_port`, `websocket_port` set the
corresponding `self` attributes; `name`/`sac` fall to the `config` dict;
`build_path`, `reset_config` and `sac_config` do not touch any port). -/
def applyConfigFileLoop (cfg : List (String × ConfigVal)) (st : LearnerConfig) :
    LearnerConfig :=
  cfg.foldl
    (fun acc kv =>
      match kv with
      | ("replay_host", ConfigVal.str v) => { acc with replayHost := v }
      | ("replay_port", ConfigVal.nat v) => { acc with replayPort := v }
      | ("learner_port", ConfigVal.nat v) => { acc with learnerPort := v }
      | ("websocket_port", ConfigVal.nat v) => { acc with websocketPort := v }
      | ("name", ConfigVal.str v) => { acc with name := v }
      | ("sac", ConfigVal.str v) => { acc with sacModule := v }
      | _ => acc)
    st

/-- The second loop of `_init_config`, over the parsed options:
`if opt == 'learner_port'` — getopt never yields a bare
`'learner_port'`, and the branch body `config['learner_port'] == int(arg)`
is a comparison with no effect on any state, so the branch is the
identity; `'--build_port'` sets `self._build_port`; `-n`/`--name` and
`--sac` update the `config` dict. -/
def applyCliLoop : List (String × String) → LearnerConfig → LearnerConfig
  | [], st => st
  | p :: rest, st =>
      applyCliLoop rest
        (if p.1 = "learner_port" then st
         else if p.1 = "--build_port" then { st with buildPort := p.2.toNat?.getD 0 }
         else if p.1 = "-n" ∨ p.1 = "--name" then
           { st with name := p.2.replace "\x7btime\x7d" nowStamp }
         else if p.1 = "--sac" then { st with sacModule := p.2 }
         else st)

/-- The first `-c`/`--config` option, if any (the first loop `break`s at
the first one). -/
def findConfigOpt : List (String × String) → Option String
  | [] => none
  | p :: rest =>
      if p.1 = "-c" ∨ p.1 = "--config" then some p.2 else findConfigOpt rest

/-- `Learner._init_config`: parse `argv`, apply the config file named by
the first `-c`/`--config` option (read through the `readFile` oracle),
then apply the CLI loop. -/
def initConfig (readFile : String → List (String × ConfigVal)) (argv : List String) :
    Option LearnerConfig :=
  (parseOpts argv).map fun opts =>
    let st1 :=
      match findConfigOpt opts with
      | some path => applyConfigFileLoop (readFile path) defaultLearnerConfig
      | none => defaultLearnerConfig
    applyCliLoop opts st1

/-- `Learner._run_learner_server` passes `self._learner_port` to
`app.run`. -/
def learnerServerPort (c : LearnerConfig) : Nat := c.learnerPort

/-- Claim C8 (code bug): a CLI learner-port override is accepted by the
option parser but has no effect — the CLI loop never changes the port the
parameter server binds, and the invocation `--learner_port 12345` leaves
it at the default 61001 instead of 12345. -/
theorem learner_port_override_ignored :
    (∀ (opts : List (String × String)) (st : LearnerConfig),
      learnerServerPort (applyCliLoop opts st) = learnerServerPort st) ∧
    parseOpts ["--learner_port", "12345"] = some [("--learner_port", "12345")] ∧
    (initConfig (fun _ => []) ["--learner_port", "12345"]).map learnerServerPort =
      some 61001 ∧
    (61001 : Nat) ≠ 12345 := by
  refine ⟨?_, by decide, by decide, by decide⟩
  intro opts
  induction opts with
  | nil => intro st; rfl
  | cons p rest ih =>
      intro st
      show learnerServerPort (applyCliLoop rest _) = learnerServerPort st
      rw [ih]
      simp only [learnerServerPort]
      split_ifs <;> rfl

end SacDs
